import Mathlib

/-!
# glox — scope resolver and tree-walking evaluator, shallowly embedded

This file embeds the core of the `glox` interpreter (a Go implementation of
Lox) in Lean: the syntax tree (`Expr`/`Stmt`), the scope-tracking resolver
(`src/resolver.go`, `src/scopes.go`), the runtime environment chain
(`src/environment.go`), the callable layer (`src/callable.go`), and the
tree-walking evaluator (`src/interpreter.go`).

Conventions of the embedding:
* Go maps used as symbol tables become association lists with
  deterministic first-match lookup and overwrite-in-place insertion.
* The mutable environment arena becomes an explicit list of nodes addressed
  by index; `NewEnvironment` appends a node, mutation rebuilds the list.
* Lox numbers are Go `float64`; they are modelled as exact rationals `ℚ`.
  Every numeral appearing in a theorem below is a small integer, on which
  float and rational arithmetic agree.
* Syntax-tree node identity (Go pointer identity, the key of the hop-count
  side table) is modelled by a `Nat` tag carried by the variable-reference
  and assignment constructors.
* Recursive walks take an explicit fuel parameter, decremented at every
  recursive call so that every definition computes by structural
  recursion; exhaustion is a distinguished outcome that no theorem below
  identifies with a program behaviour.
-/

namespace Glox

/-- The fields of `Token` (src/token.go) that the resolver and evaluator
read: the lexeme and the source line used in error reports. -/
structure Token where
  lexeme : String
  line : Nat
deriving DecidableEq, Repr

/-- Operator token types (src/token.go `TokenType`), restricted to the
operators the evaluator dispatches on. -/
inductive TokType where
  | minus | plus | slash | star
  | bang | bangEqual | equalEqual
  | greater | greaterEqual | less | lessEqual
  | andOp | orOp
deriving DecidableEq, Repr

/-- Literal payloads (`LiteralExpr.Value`): nil, bool, 64-bit float
(modelled as `ℚ`), or string. -/
inductive Lit where
  | vnil
  | bool (b : Bool)
  | num (q : ℚ)
  | str (s : String)
deriving DecidableEq, Repr

mutual
/-- Expression nodes (src/ast.go, current variant set: the resolver in
src/resolver.go handles exactly these). `variableExpr` and `assign` carry a
`Nat` node-identity tag modelling Go pointer identity, the key of the
hop-count table. -/
inductive Expr where
  | binary (left : Expr) (op : TokType) (opLine : Nat) (right : Expr)
  | grouping (e : Expr)
  | lit (v : Lit)
  | unary (op : TokType) (opLine : Nat) (right : Expr)
  | variableExpr (id : Nat) (name : Token)
  | assign (id : Nat) (name : Token) (value : Expr)
  | logical (left : Expr) (op : TokType) (right : Expr)
  | call (callee : Expr) (paren : Token) (args : List Expr)
  | lambda (params : List Token) (body : List Stmt)
deriving Repr

/-- Statement nodes (src/ast.go, current variant set). `for` loops never
reach the core: the parser desugars them into `while` (src/parser.go). -/
inductive Stmt where
  | exprStmt (e : Expr)
  | printStmt (e : Expr)
  | varDecl (name : Token) (init : Option Expr)
  | block (stmts : List Stmt)
  | ifStmt (cond : Expr) (thenBranch : Stmt) (elseBranch : Option Stmt)
  | whileStmt (cond : Expr) (body : Stmt)
  | breakStmt
  | continueStmt
  | returnStmt (keyword : Token) (value : Option Expr)
  | funDecl (name : Token) (params : List Token) (body : List Stmt)
deriving Repr
end

/-- Association-list insertion with overwrite, modelling Go `m[k] = v`. -/
def assocSet {β : Type} (t : List (String × β)) (k : String) (v : β) :
    List (String × β) :=
  match t with
  | [] => [(k, v)]
  | (k', v') :: rest =>
    if k' = k then (k, v) :: rest else (k', v') :: assocSet rest k v

/-- Association-list lookup, modelling Go `v, ok := m[k]`. -/
def assocGet {β : Type} (t : List (String × β)) (k : String) : Option β :=
  (t.find? (fun p => p.1 = k)).map Prod.snd

/-- A resolver scope (src/scopes.go `Scope`): name ↦ defined-flag.
`Declare` stores `false` (declared, not yet usable), `Define` flips it to
`true`. -/
abbrev Scope := List (String × Bool)

/-- `Scope.Declare` (src/scopes.go): `s[name] = false`. -/
def Scope.Declare (s : Scope) (name : String) : Scope := assocSet s name false

/-- `Scope.Define` (src/scopes.go): `s[name] = true`. -/
def Scope.Define (s : Scope) (name : String) : Scope := assocSet s name true

/-- `Scope.Declared` (src/scopes.go): the name has an entry, whatever the
flag. -/
def Scope.Declared (s : Scope) (name : String) : Bool :=
  (assocGet s name).isSome

/-- `Scope.Defined` (src/scopes.go): the entry exists and its flag is
`true`. -/
def Scope.Defined (s : Scope) (name : String) : Bool :=
  match assocGet s name with
  | some b => b
  | none => false

/-- The error conditions of resolution and evaluation (src/resolver.go,
src/environment.go, src/interpreter.go build these as `fmt.Errorf` strings;
the embedding keeps the condition and the data the message interpolates).
`brokenChain` models the Go panic when `Ancestor` walks past the root;
`outOfFuel` and `escapedSignal` belong to the model, not the program. -/
inductive GloxErr where
  | duplicateDeclaration (name : String)
  | selfReferencingInitializer
  | undefinedVariable (line : Nat) (name : String)
  | typeMismatch (line : Nat)
  | notCallable (line : Nat)
  | arityMismatch (line : Nat) (expected got : Nat)
  | unknownOperator (line : Nat)
  | brokenChain
  | outOfFuel
  | escapedSignal
deriving DecidableEq, Repr

/-- Resolver state: the scope stack (head = innermost; the Go
`Stack[Scope]` grows at the slice's end and is peeked/scanned from that
end, which is the head here) and the hop-count side table.

The table is kept as an append-log of `(node-id, distance)` records;
lookup takes the most recent record, matching Go map overwrite. The
record-keeping itself is `Interpreter.Resolve`, whose body is not under
src/ (src/resolver.go calls it; src/interpreter.go is an earlier snapshot
without it) — the log-append below is modelled from the spec:
"record (node identity → distance from innermost) in the Hop-Count
Table". -/
structure RState where
  scopes : List Scope
  locals : List (Nat × Nat)
deriving Repr

/-- Hop-count table lookup: the most recent record for the node wins,
matching Go map assignment semantics on the append-log representation. -/
def lookupLocal (locals : List (Nat × Nat)) (id : Nat) : Option Nat :=
  (locals.reverse.find? (fun p => p.1 = id)).map Prod.snd

/-- `Resolver.BeginScope` (src/resolver.go): push an empty scope. -/
def beginScope (st : RState) : RState :=
  { st with scopes := ([] : Scope) :: st.scopes }

/-- `Resolver.EndScope` (src/resolver.go): pop the innermost scope. -/
def endScope (st : RState) : RState :=
  { st with scopes := st.scopes.tail }

/-- `Resolver.Declare` (src/resolver.go): no-op at global scope; error if
the name is already declared in the innermost scope; otherwise mark it
declared there. -/
def declareName (st : RState) (name : String) : Except GloxErr RState :=
  match st.scopes with
  | [] => .ok st
  | s :: rest =>
    if s.Declared name then .error (.duplicateDeclaration name)
    else .ok { st with scopes := s.Declare name :: rest }

/-- `Resolver.Define` (src/resolver.go): no-op at global scope; otherwise
mark the name usable in the innermost scope. -/
def defineName (st : RState) (name : String) : RState :=
  match st.scopes with
  | [] => st
  | s :: rest => { st with scopes := s.Define name :: rest }

/-- The scan of `Resolver.ResolveLocal` (src/resolver.go): walk the scope
stack from innermost to outermost and return the distance of the first
scope where the name is `Defined`; `none` if no tracked scope defines it. -/
def findDefinedDistance : List Scope → String → Option Nat
  | [], _ => none
  | s :: rest, name =>
    if s.Defined name then some 0
    else (findDefinedDistance rest name).map (· + 1)

/-- `Resolver.ResolveLocal` (src/resolver.go): record the distance when a
tracked scope defines the name, record nothing otherwise (global
fallback). -/
def resolveLocal (st : RState) (id : Nat) (name : Token) : RState :=
  match findDefinedDistance st.scopes name.lexeme with
  | some d => { st with locals := st.locals ++ [(id, d)] }
  | none => st

/-- Declare-and-define every parameter in the freshly pushed function
scope (the loop of `Resolver.ResolveFunction`, src/resolver.go). -/
def declareParams : List Token → RState → Except GloxErr RState
  | [], st => .ok st
  | p :: ps, st =>
    match declareName st p.lexeme with
    | .error e => .error e
    | .ok st1 => declareParams ps (defineName st1 p.lexeme)

mutual
/-- `Resolver.ResolveExpr` dispatched over the expression visitors
(src/resolver.go `VisitBinaryExpr` … `VisitLambdaExpr`). -/
def resolveExpr : Nat → Expr → RState → Except GloxErr RState
  | 0, _, _ => .error .outOfFuel
  | fuel + 1, e, st =>
    match e with
    | .binary l _ _ r =>
      match resolveExpr fuel l st with
      | .error err => .error err
      | .ok st1 => resolveExpr fuel r st1
    | .grouping g => resolveExpr fuel g st
    | .lit _ => .ok st
    | .unary _ _ r => resolveExpr fuel r st
    | .variableExpr id name =>
      match st.scopes with
      | s :: _ =>
        if s.Declared name.lexeme && !(s.Defined name.lexeme) then
          .error .selfReferencingInitializer
        else .ok (resolveLocal st id name)
      | [] => .ok (resolveLocal st id name)
    | .assign id name value =>
      match resolveExpr fuel value st with
      | .error err => .error err
      | .ok st1 => .ok (resolveLocal st1 id name)
    | .logical l _ r =>
      match resolveExpr fuel l st with
      | .error err => .error err
      | .ok st1 => resolveExpr fuel r st1
    | .call callee _ args =>
      match resolveExpr fuel callee st with
      | .error err => .error err
      | .ok st1 => resolveExprs fuel args st1
    | .lambda params body => resolveFunction fuel params body st

/-- The argument loop of `Resolver.VisitCallExpr` (src/resolver.go). -/
def resolveExprs : Nat → List Expr → RState → Except GloxErr RState
  | 0, _, _ => .error .outOfFuel
  | _ + 1, [], st => .ok st
  | fuel + 1, e :: es, st =>
    match resolveExpr fuel e st with
    | .error err => .error err
    | .ok st1 => resolveExprs fuel es st1

/-- `Resolver.ResolveStmt` dispatched over the statement visitors
(src/resolver.go `VisitExpressionStmt` … `VisitFunctionStmt`). In
`varDecl` the initializer is resolved between `Declare` and `Define`,
which is what makes self-references detectable. -/
def resolveStmt : Nat → Stmt → RState → Except GloxErr RState
  | 0, _, _ => .error .outOfFuel
  | fuel + 1, s, st =>
    match s with
    | .exprStmt e => resolveExpr fuel e st
    | .printStmt e => resolveExpr fuel e st
    | .varDecl name init =>
      match declareName st name.lexeme with
      | .error e => .error e
      | .ok st1 =>
        match init with
        | some e =>
          match resolveExpr fuel e st1 with
          | .error err => .error err
          | .ok st2 => .ok (defineName st2 name.lexeme)
        | none => .ok (defineName st1 name.lexeme)
    | .block stmts =>
      match resolveStmts fuel stmts (beginScope st) with
      | .error e => .error e
      | .ok st1 => .ok (endScope st1)
    | .ifStmt c t e =>
      match resolveExpr fuel c st with
      | .error err => .error err
      | .ok st1 =>
        match resolveStmt fuel t st1 with
        | .error err => .error err
        | .ok st2 =>
          match e with
          | some s2 => resolveStmt fuel s2 st2
          | none => .ok st2
    | .whileStmt c b =>
      match resolveExpr fuel c st with
      | .error err => .error err
      | .ok st1 => resolveStmt fuel b st1
    | .breakStmt => .ok st
    | .continueStmt => .ok st
    | .returnStmt _ v =>
      match v with
      | some e => resolveExpr fuel e st
      | none => .ok st
    | .funDecl name params body =>
      match declareName st name.lexeme with
      | .error e => .error e
      | .ok st1 => resolveFunction fuel params body (defineName st1 name.lexeme)

/-- `Resolver.Resolve` (src/resolver.go): statements in order, aborting at
the first error. -/
def resolveStmts : Nat → List Stmt → RState → Except GloxErr RState
  | 0, _, _ => .error .outOfFuel
  | _ + 1, [], st => .ok st
  | fuel + 1, s :: ss, st =>
    match resolveStmt fuel s st with
    | .error e => .error e
    | .ok st1 => resolveStmts fuel ss st1

/-- `Resolver.ResolveFunction` (src/resolver.go): new scope, parameters
declared and defined, body resolved, scope popped. -/
def resolveFunction : Nat → List Token → List Stmt → RState →
    Except GloxErr RState
  | 0, _, _, _ => .error .outOfFuel
  | fuel + 1, params, body, st =>
    match declareParams params (beginScope st) with
    | .error e => .error e
    | .ok st1 =>
      match resolveStmts fuel body st1 with
      | .error e => .error e
      | .ok st2 => .ok (endScope st2)
end

/-- `resolve` applied to a whole program, starting from the given
hop-count table (the table lives on the `Interpreter` in Go, so a second
resolution run starts from the first run's table). -/
def resolveProgramFrom (fuel : Nat) (p : List Stmt)
    (locals : List (Nat × Nat)) : Except GloxErr (List (Nat × Nat)) :=
  match resolveStmts fuel p ⟨[], locals⟩ with
  | .error e => .error e
  | .ok st => .ok st.locals

/-- Resolution of a program from a fresh resolver and an empty table. -/
def resolveProgram (fuel : Nat) (p : List Stmt) :
    Except GloxErr (List (Nat × Nat)) :=
  resolveProgramFrom fuel p []

/-- Runtime values (the `any` payloads of src/interpreter.go): null,
boolean, 64-bit float (as `ℚ`), text, or a Callable. `function` models
`*Function` (src/callable.go: captured environment node + the declaration's
name, parameters and body); `lambdaFn` models `*Lambda` likewise. Native
functions (`*NativeFunction`) are host-capability wrappers registered only
by the out-of-scope driver (src/glox.go `DefaultGlobals`) and are not
modelled. The captured environment is the *index* of the chain node, not a
copy of it: both closures and blocks address the one shared arena. -/
inductive Value where
  | vnil
  | bool (b : Bool)
  | num (q : ℚ)
  | str (s : String)
  | function (closure : Nat) (name : Token) (params : List Token)
      (body : List Stmt)
  | lambdaFn (closure : Nat) (params : List Token) (body : List Stmt)
deriving Repr

/-- One environment-chain node (src/environment.go `Environment`): its own
binding table and the index of the enclosing node (`nil` at the chain
root). Nodes live in an arena (`List Environment`) addressed by index,
modelling Go's shared mutable pointers. -/
structure Environment where
  values : List (String × Value)
  enclosing : Option Nat
deriving Repr

/-- `NewEnvironment` (src/environment.go): a fresh node with an empty
table, appended to the arena; returns the arena and the new node's index. -/
def newEnvironment (envs : List Environment) (enclosing : Option Nat) :
    List Environment × Nat :=
  (envs ++ [⟨[], enclosing⟩], envs.length)

/-- `Environment.Define` (src/environment.go): insert in the node's own
table, overwriting any same-name entry there. -/
def envDefine (envs : List Environment) (i : Nat) (name : String)
    (v : Value) : List Environment :=
  match envs[i]? with
  | some node => envs.set i { node with values := assocSet node.values name v }
  | none => envs

/-- `Environment.Get` (src/environment.go): search this node's table, then
the enclosing chain, failing with `UndefinedVariable` (carrying the
token's line) at the root. Fuel bounds the chain walk. -/
def envGet : Nat → List Environment → Nat → Token → Except GloxErr Value
  | 0, _, _, _ => .error .outOfFuel
  | fuel + 1, envs, i, name =>
    match envs[i]? with
    | none => .error .brokenChain
    | some node =>
      match assocGet node.values name.lexeme with
      | some v => .ok v
      | none =>
        match node.enclosing with
        | some p => envGet fuel envs p name
        | none => .error (.undefinedVariable name.line name.lexeme)

/-- `Environment.Assign` (src/environment.go): overwrite where the name is
found, searching up the chain; `UndefinedVariable` at the root. -/
def envAssign : Nat → List Environment → Nat → Token → Value →
    Except GloxErr (List Environment)
  | 0, _, _, _, _ => .error .outOfFuel
  | fuel + 1, envs, i, name, v =>
    match envs[i]? with
    | none => .error .brokenChain
    | some node =>
      match assocGet node.values name.lexeme with
      | some _ =>
        .ok (envs.set i { node with values := assocSet node.values name.lexeme v })
      | none =>
        match node.enclosing with
        | some p => envAssign fuel envs p name v
        | none => .error (.undefinedVariable name.line name.lexeme)

/-- `Environment.Ancestor` (src/environment.go): follow exactly `distance`
enclosing links. The Go loop type-asserts `Enclosing` to `*Environment`
and dereferences it, panicking past the root; `none` models that panic. -/
def envAncestor (envs : List Environment) : Nat → Nat → Option Nat
  | i, 0 => some i
  | i, d + 1 =>
    match envs[i]? with
    | none => none
    | some node =>
      match node.enclosing with
      | none => none
      | some p => envAncestor envs p d

/-- `Environment.GetAt` (src/environment.go):
`e.Ancestor(distance).Get(Token{Lexeme: name})` — note it delegates to the
searching `Get`, and the synthesised token has line 0. -/
def envGetAt (fuel : Nat) (envs : List Environment) (i d : Nat)
    (name : String) : Except GloxErr Value :=
  match envAncestor envs i d with
  | none => .error .brokenChain
  | some j => envGet fuel envs j ⟨name, 0⟩

/-- `Environment.AssignAt` (src/environment.go):
`e.Ancestor(distance).Assign(name, value)` — delegating to the searching
`Assign` with the original token. -/
def envAssignAt (fuel : Nat) (envs : List Environment) (i d : Nat)
    (name : Token) (v : Value) : Except GloxErr (List Environment) :=
  match envAncestor envs i d with
  | none => .error .brokenChain
  | some j => envAssign fuel envs j name v

/-- `isTruthy` (src/interpreter.go): nil and false are falsy, everything
else (zero and empty text included) is truthy. -/
def isTruthy : Value → Bool
  | .vnil => false
  | .bool b => b
  | _ => true

/-- `isEqual` (src/interpreter.go): nil equals only nil; otherwise Go
interface equality, which compares by value within a type and is false
across types. Go compares closures by pointer; no claim exercises closure
equality and the embedding makes closure comparisons false. -/
def isEqual : Value → Value → Bool
  | .vnil, .vnil => true
  | .bool a, .bool b => a == b
  | .num a, .num b => a == b
  | .str a, .str b => a == b
  | _, _ => false

/-- Go `%v` rendering of a float64, restricted to the exact rationals of
this model; integral values render as their integer numeral, exactly as Go
renders them. -/
def renderNum (q : ℚ) : String :=
  if q.den = 1 then toString q.num
  else toString q.num ++ "/" ++ toString q.den

/-- The default textual rendering (`fmt` `%v`): used by `print`
(`fmt.Println`) and by the text+value branch of `+` (`fmt.Sprintf`).
Callables render through their `String()` methods (src/callable.go). -/
def renderValue : Value → String
  | .vnil => "<nil>"
  | .bool true => "true"
  | .bool false => "false"
  | .num q => renderNum q
  | .str s => s
  | .function _ name _ _ => "<fn " ++ name.lexeme ++ ">"
  | .lambdaFn _ _ _ => "<lambda>"

/-- `isString` (src/interpreter.go). -/
def isStringV : Value → Bool
  | .str _ => true
  | _ => false

/-- `isFloat` (src/interpreter.go). -/
def isFloatV : Value → Bool
  | .num _ => true
  | _ => false

/-- The `Plus` case of `Interpreter.VisitBinaryExpr` (src/interpreter.go):
number+number adds; text+text concatenates; if either side is text, both
sides are rendered with `%v` and concatenated; anything else is the
`TypeMismatch` condition (`'+' operation not supported`). -/
def plusValues (line : Nat) (l r : Value) : Except GloxErr Value :=
  match l, r with
  | .num a, .num b => .ok (.num (a + b))
  | .str a, .str b => .ok (.str (a ++ b))
  | _, _ =>
    if isStringV l || isStringV r then
      .ok (.str (renderValue l ++ renderValue r))
    else
      .error (.typeMismatch line)

/-- The operator dispatch of `Interpreter.VisitBinaryExpr`
(src/interpreter.go) on two evaluated operands. Comparisons and the
non-`+` arithmetic require two numbers (`checkNumberOperands`); the switch
default is the unknown-operator error. -/
def evalBinaryOp (op : TokType) (opLine : Nat) (l r : Value) :
    Except GloxErr Value :=
  match op with
  | .greater =>
    match l, r with
    | .num a, .num b => .ok (.bool (decide (b < a)))
    | _, _ => .error (.typeMismatch opLine)
  | .greaterEqual =>
    match l, r with
    | .num a, .num b => .ok (.bool (decide (b ≤ a)))
    | _, _ => .error (.typeMismatch opLine)
  | .less =>
    match l, r with
    | .num a, .num b => .ok (.bool (decide (a < b)))
    | _, _ => .error (.typeMismatch opLine)
  | .lessEqual =>
    match l, r with
    | .num a, .num b => .ok (.bool (decide (a ≤ b)))
    | _, _ => .error (.typeMismatch opLine)
  | .equalEqual => .ok (.bool (isEqual l r))
  | .bangEqual => .ok (.bool (!isEqual l r))
  | .minus =>
    match l, r with
    | .num a, .num b => .ok (.num (a - b))
    | _, _ => .error (.typeMismatch opLine)
  | .slash =>
    match l, r with
    | .num a, .num b => .ok (.num (a / b))
    | _, _ => .error (.typeMismatch opLine)
  | .star =>
    match l, r with
    | .num a, .num b => .ok (.num (a * b))
    | _, _ => .error (.typeMismatch opLine)
  | .plus => plusValues opLine l r
  | _ => .error (.unknownOperator opLine)

/-- The operator dispatch of `Interpreter.VisitUnaryExpr`
(src/interpreter.go): `-` needs a number, `!` negates truthiness. -/
def evalUnaryOp (op : TokType) (opLine : Nat) (r : Value) :
    Except GloxErr Value :=
  match op with
  | .minus =>
    match r with
    | .num a => .ok (.num (-a))
    | _ => .error (.typeMismatch opLine)
  | .bang => .ok (.bool (!isTruthy r))
  | _ => .error (.unknownOperator opLine)

/-- Literal payload to runtime value (`Interpreter.VisitLiteralExpr`). -/
def litToValue : Lit → Value
  | .vnil => .vnil
  | .bool b => .bool b
  | .num q => .num q
  | .str s => .str s

/-- Evaluator state: the environment arena, the index of the
interpreter's current node (`Interpreter.env`), and the `print` output
collected in source order. -/
structure IState where
  envs : List Environment
  cur : Nat
  output : List String
deriving Repr

/-- The interpreter's start state: a single empty global node.
`DefaultGlobals` (src/glox.go) additionally registers the native
functions clock/prompt/number; they are host-capability wrappers outside
the core and unused by every claim. -/
def initState : IState := ⟨[⟨[], none⟩], 0, []⟩

/-- Non-normal completion of a statement or expression: a runtime error,
or one of the control-flow signals (`ReturnValue` of src/callable.go and
the break/continue sentinels), which travel the same `error` channel as Go
errors but are distinct from them; `fuelOut` is the model's own
exhaustion marker. -/
inductive Ctl where
  | err (e : GloxErr)
  | ret (v : Value)
  | brk
  | cont
  | fuelOut
deriving Repr

/-- Lift an environment/operator error into the control channel. -/
def liftE {α : Type} : Except GloxErr α → Except Ctl α
  | .ok a => .ok a
  | .error e => .error (.err e)

/-- The parameter-binding loop of `Function.Call`/`Lambda.Call`
(src/callable.go): `Define` each parameter to its positional argument in
the fresh call node's table. -/
def bindParams : List Token → List Value → List (String × Value) →
    List (String × Value)
  | p :: ps, v :: vs, tbl => bindParams ps vs (assocSet tbl p.lexeme v)
  | _, _, tbl => tbl

mutual
/-- `Interpreter.Evaluate` (src/interpreter.go) dispatched over the
expression visitors. The hop-count dispatch in the variable and
assignment cases is modelled from the spec: "if the node has a Hop-Count
Table entry, use get-at/assign-at with that distance against the current
Environment Chain node; otherwise fall back to unindexed get/assign from
the current node" (the current interpreter's variable dispatch is not
under src/ — src/interpreter.go is an earlier snapshot that always calls
`Get`/`Assign`, yet src/resolver.go already feeds `Interpreter.Resolve`).
`VisitCallExpr` (callee, then arguments left-to-right, then `NotCallable`
or `ArityMismatch` checks before invocation) and `VisitLambdaExpr`
(capture the current node) are likewise modelled from the spec; the
invocation itself is src/callable.go. -/
def evalExpr : Nat → List (Nat × Nat) → Expr → IState →
    IState × Except Ctl Value
  | 0, _, _, st => (st, .error .fuelOut)
  | fuel + 1, locals, e, st =>
    match e with
    | .binary l op opLine r =>
      match evalExpr fuel locals l st with
      | (st1, .ok lv) =>
        match evalExpr fuel locals r st1 with
        | (st2, .ok rv) => (st2, liftE (evalBinaryOp op opLine lv rv))
        | (st2, .error s) => (st2, .error s)
      | (st1, .error s) => (st1, .error s)
    | .grouping g => evalExpr fuel locals g st
    | .lit v => (st, .ok (litToValue v))
    | .unary op opLine r =>
      match evalExpr fuel locals r st with
      | (st1, .ok rv) => (st1, liftE (evalUnaryOp op opLine rv))
      | (st1, .error s) => (st1, .error s)
    | .variableExpr id name =>
      match lookupLocal locals id with
      | some d => (st, liftE (envGetAt fuel st.envs st.cur d name.lexeme))
      | none => (st, liftE (envGet fuel st.envs st.cur name))
    | .assign id name value =>
      match evalExpr fuel locals value st with
      | (st1, .ok v) =>
        match lookupLocal locals id with
        | some d =>
          match envAssignAt fuel st1.envs st1.cur d name v with
          | .ok envs2 => ({ st1 with envs := envs2 }, .ok v)
          | .error e => (st1, .error (.err e))
        | none =>
          match envAssign fuel st1.envs st1.cur name v with
          | .ok envs2 => ({ st1 with envs := envs2 }, .ok v)
          | .error e => (st1, .error (.err e))
      | (st1, .error s) => (st1, .error s)
    | .logical l op r =>
      match evalExpr fuel locals l st with
      | (st1, .ok lv) =>
        match op with
        | .orOp =>
          if isTruthy lv then (st1, .ok lv)
          else evalExpr fuel locals r st1
        | _ =>
          if !isTruthy lv then (st1, .ok lv)
          else evalExpr fuel locals r st1
      | (st1, .error s) => (st1, .error s)
    | .call callee paren args =>
      match evalExpr fuel locals callee st with
      | (st1, .ok cv) =>
        match evalArgs fuel locals args st1 with
        | (st2, .ok vs) =>
          match cv with
          | .function closure _ params body =>
            if vs.length = params.length then
              callFunction fuel locals closure params body vs st2
            else
              (st2, .error (.err (.arityMismatch paren.line params.length vs.length)))
          | .lambdaFn closure params body =>
            if vs.length = params.length then
              callFunction fuel locals closure params body vs st2
            else
              (st2, .error (.err (.arityMismatch paren.line params.length vs.length)))
          | _ => (st2, .error (.err (.notCallable paren.line)))
        | (st2, .error s) => (st2, .error s)
      | (st1, .error s) => (st1, .error s)
    | .lambda params body => (st, .ok (.lambdaFn st.cur params body))

/-- Left-to-right argument evaluation (the loop of the call visitor). -/
def evalArgs : Nat → List (Nat × Nat) → List Expr → IState →
    IState × Except Ctl (List Value)
  | 0, _, _, st => (st, .error .fuelOut)
  | _ + 1, _, [], st => (st, .ok [])
  | fuel + 1, locals, e :: es, st =>
    match evalExpr fuel locals e st with
    | (st1, .ok v) =>
      match evalArgs fuel locals es st1 with
      | (st2, .ok vs) => (st2, .ok (v :: vs))
      | (st2, .error s) => (st2, .error s)
    | (st1, .error s) => (st1, .error s)

/-- `Interpreter.Execute` (src/interpreter.go) dispatched over the
statement visitors. `VisitVarDeclStmt`, `VisitBlockStmt`, `VisitIfStmt`,
`VisitWhileStmt` and `VisitPrintStmt` follow src/interpreter.go. The
return, break/continue and function-declaration cases are modelled from
the spec (their visitor methods are not in the src/interpreter.go
snapshot): `return` raises a value-carrying signal (null when bare),
break/continue raise loop signals consumed by the nearest `while`, and a
function declaration builds a user-function Callable capturing the
current node and binds it under the function's name in that same node. -/
def execStmt : Nat → List (Nat × Nat) → Stmt → IState →
    IState × Except Ctl Unit
  | 0, _, _, st => (st, .error .fuelOut)
  | fuel + 1, locals, s, st =>
    match s with
    | .exprStmt e =>
      match evalExpr fuel locals e st with
      | (st1, .ok _) => (st1, .ok ())
      | (st1, .error sg) => (st1, .error sg)
    | .printStmt e =>
      match evalExpr fuel locals e st with
      | (st1, .ok v) =>
        ({ st1 with output := st1.output ++ [renderValue v] }, .ok ())
      | (st1, .error sg) => (st1, .error sg)
    | .varDecl name init =>
      match init with
      | none =>
        ({ st with envs := envDefine st.envs st.cur name.lexeme .vnil }, .ok ())
      | some e =>
        match evalExpr fuel locals e st with
        | (st1, .ok v) =>
          ({ st1 with envs := envDefine st1.envs st1.cur name.lexeme v }, .ok ())
        | (st1, .error sg) => (st1, .error sg)
    | .block stmts =>
      let (envs1, idx) := newEnvironment st.envs (some st.cur)
      executeBlock fuel locals stmts idx { st with envs := envs1 }
    | .ifStmt c t e =>
      match evalExpr fuel locals c st with
      | (st1, .ok cv) =>
        if isTruthy cv then execStmt fuel locals t st1
        else
          match e with
          | some s2 => execStmt fuel locals s2 st1
          | none => (st1, .ok ())
      | (st1, .error sg) => (st1, .error sg)
    | .whileStmt c b =>
      match evalExpr fuel locals c st with
      | (st1, .ok cv) =>
        if isTruthy cv then
          match execStmt fuel locals b st1 with
          | (st2, .ok ()) => execStmt fuel locals (.whileStmt c b) st2
          | (st2, .error .brk) => (st2, .ok ())
          | (st2, .error .cont) => execStmt fuel locals (.whileStmt c b) st2
          | (st2, .error sg) => (st2, .error sg)
        else (st1, .ok ())
      | (st1, .error sg) => (st1, .error sg)
    | .breakStmt => (st, .error .brk)
    | .continueStmt => (st, .error .cont)
    | .returnStmt _ value =>
      match value with
      | some e =>
        match evalExpr fuel locals e st with
        | (st1, .ok v) => (st1, .error (.ret v))
        | (st1, .error sg) => (st1, .error sg)
      | none => (st, .error (.ret .vnil))
    | .funDecl name params body =>
      ({ st with
          envs := envDefine st.envs st.cur name.lexeme
            (.function st.cur name params body) }, .ok ())

/-- `Interpreter.Interpret`'s statement loop (src/interpreter.go): in
order, stopping at the first non-normal outcome. -/
def execStmts : Nat → List (Nat × Nat) → List Stmt → IState →
    IState × Except Ctl Unit
  | 0, _, _, st => (st, .error .fuelOut)
  | _ + 1, _, [], st => (st, .ok ())
  | fuel + 1, locals, s :: ss, st =>
    match execStmt fuel locals s st with
    | (st1, .ok ()) => execStmts fuel locals ss st1
    | (st1, .error sg) => (st1, .error sg)

/-- `Interpreter.ExecuteBlock` (src/interpreter.go): remember the current
node, run the statements with `env` active, and restore the previous node
on every exit path (the Go `defer`), normal or signalled. -/
def executeBlock : Nat → List (Nat × Nat) → List Stmt → Nat → IState →
    IState × Except Ctl Unit
  | 0, _, _, _, st => (st, .error .fuelOut)
  | fuel + 1, locals, stmts, idx, st =>
    let prev := st.cur
    match execStmts fuel locals stmts { st with cur := idx } with
    | (st1, r) => ({ st1 with cur := prev }, r)

/-- `Function.Call` / `Lambda.Call` (src/callable.go): a fresh environment
node whose parent is the callable's captured node, parameters bound to
their arguments there, the body run as a block with that node active; a
`ReturnValue` signal caught here yields its carried value, normal
fall-through yields nil, and any other signal propagates. -/
def callFunction : Nat → List (Nat × Nat) → Nat → List Token →
    List Stmt → List Value → IState → IState × Except Ctl Value
  | 0, _, _, _, _, _, st => (st, .error .fuelOut)
  | fuel + 1, locals, closure, params, body, argvals, st =>
    let idx := st.envs.length
    let envs1 := st.envs ++ [⟨bindParams params argvals [], some closure⟩]
    match executeBlock fuel locals body idx { st with envs := envs1 } with
    | (st1, .ok ()) => (st1, .ok .vnil)
    | (st1, .error (.ret v)) => (st1, .ok v)
    | (st1, .error sg) => (st1, .error sg)
end

/-- The driver, modelled from the spec: "the driver invokes Resolver once
per program, then Evaluator once per program using the same tree
instance", and a resolution error rejects the program before any
execution (the entry points in src/glox.go are out-of-scope wrappers).
The result is the program's print output; a control-flow signal escaping
to the top level would be an implementation defect and surfaces as
`escapedSignal`. -/
def runProgram (fuel : Nat) (p : List Stmt) : Except GloxErr (List String) :=
  match resolveProgram fuel p with
  | .error e => .error e
  | .ok locals =>
    match execStmts fuel locals p initState with
    | (st, .ok ()) => .ok st.output
    | (_, .error (.err e)) => .error e
    | (_, .error .fuelOut) => .error .outOfFuel
    | (_, .error _) => .error .escapedSignal

end Glox

namespace Glox

/-- Decidable equality of `Except` results, used to evaluate the
embedding at concrete inputs. -/
instance {ε α : Type} [DecidableEq ε] [DecidableEq α] :
    DecidableEq (Except ε α) := fun a b =>
  match a, b with
  | .ok x, .ok y =>
    match decEq x y with
    | isTrue h => isTrue (by rw [h])
    | isFalse h => isFalse (fun hh => h (Except.ok.inj hh))
  | .error e, .error f =>
    match decEq e f with
    | isTrue h => isTrue (by rw [h])
    | isFalse h => isFalse (fun hh => h (Except.error.inj hh))
  | .ok _, .error _ => isFalse (fun h => Except.noConfusion h)
  | .error _, .ok _ => isFalse (fun h => Except.noConfusion h)

/-! ## Concrete programs named by the claims -/

/-- `var a = 1; { var a = a + 1; print a; }` — the inner declaration's
initializer reads `a` while the inner `a` is declared-but-undefined. -/
def c1progOuterRead : List Stmt :=
  [ .varDecl ⟨"a", 1⟩ (some (.lit (.num 1))),
    .block
      [ .varDecl ⟨"a", 2⟩
          (some (.binary (.variableExpr 1 ⟨"a", 2⟩) .plus 2 (.lit (.num 1)))),
        .printStmt (.variableExpr 2 ⟨"a", 2⟩) ] ]

/-- `var a = 1; { var a = a; }` — the bare self-reference. -/
def c1progSelfRef : List Stmt :=
  [ .varDecl ⟨"a", 1⟩ (some (.lit (.num 1))),
    .block [ .varDecl ⟨"a", 2⟩ (some (.variableExpr 3 ⟨"a", 2⟩)) ] ]

/-- `fun make(){ var i = 0; fun inc(){ i = i + 1; return i; } return inc; }
var c = make(); print c(); print c();` -/
def c4prog : List Stmt :=
  [ .funDecl ⟨"make", 1⟩ []
      [ .varDecl ⟨"i", 2⟩ (some (.lit (.num 0))),
        .funDecl ⟨"inc", 3⟩ []
          [ .exprStmt (.assign 1 ⟨"i", 3⟩
              (.binary (.variableExpr 2 ⟨"i", 3⟩) .plus 3 (.lit (.num 1)))),
            .returnStmt ⟨"return", 3⟩ (some (.variableExpr 3 ⟨"i", 3⟩)) ],
        .returnStmt ⟨"return", 4⟩ (some (.variableExpr 4 ⟨"inc", 4⟩)) ],
    .varDecl ⟨"c", 6⟩ (some (.call (.variableExpr 5 ⟨"make", 6⟩) ⟨")", 6⟩ [])),
    .printStmt (.call (.variableExpr 6 ⟨"c", 7⟩) ⟨")", 7⟩ []),
    .printStmt (.call (.variableExpr 7 ⟨"c", 8⟩) ⟨")", 8⟩ []) ]

/-- A two-node environment chain: the root binds `x`, its child binds
nothing. -/
def c2heap : List Environment :=
  [ ⟨[("x", .num 1)], none⟩, ⟨[], some 0⟩ ]

/-! ## C1 -/

/-- C1, counterexample: the claim says resolution of
`var a = 1; { var a = a + 1; print a; }` succeeds with the initializer's
`a` resolving to the outer declaration. In fact `Resolver.VisitVariableExpr`
rejects *any* read of a name that is declared-but-undefined in the
innermost scope — the surrounding `+ 1` does not matter — so resolution
fails with `SelfReferencingInitializer` and no hop-count table is
produced. -/
theorem c1_counterexample :
    resolveProgram 12 c1progOuterRead = .error .selfReferencingInitializer ∧
    (resolveProgram 12 c1progOuterRead).toOption = none := by
  constructor <;> decide

/-- C1, amended: both `var a = 1; { var a = a + 1; print a; }` and
`var a = 1; { var a = a; }` fail resolution with
`SelfReferencingInitializer`, and neither program runs (the driver
rejects the program before execution, so it produces no output). -/
theorem c1_amended :
    resolveProgram 12 c1progOuterRead = .error .selfReferencingInitializer ∧
    resolveProgram 12 c1progSelfRef = .error .selfReferencingInitializer ∧
    runProgram 12 c1progOuterRead = .error .selfReferencingInitializer ∧
    runProgram 12 c1progSelfRef = .error .selfReferencingInitializer := by
  refine ⟨by decide, by decide, ?_, ?_⟩ <;>
    simp [runProgram] <;> decide

/-! ## C4 -/

/-- C4: a function declaration builds a user-function Callable that
captures the index of the current Environment Chain node — a reference
into the shared arena, not a copy of the node — and binds it in that same
node; consequently in the make/inc program the two calls of `c` mutate
and read the same `i` binding and print `1` then `2`. -/
theorem c4_closure_capture :
    (∀ fuel locals name params body st,
      execStmt (fuel + 1) locals (.funDecl name params body) st
        = ({ st with
              envs := envDefine st.envs st.cur name.lexeme
                (.function st.cur name params body) }, .ok ())) ∧
    runProgram 30 c4prog = .ok ["1", "2"] := by
  refine ⟨fun _ _ _ _ _ _ => rfl, ?_⟩
  simp [runProgram, resolveProgram, resolveProgramFrom, resolveStmts, resolveStmt,
    resolveExpr, resolveExprs, resolveFunction, resolveLocal, declareName, defineName,
    declareParams, beginScope, endScope, findDefinedDistance, Scope.Declared, Scope.Defined,
    Scope.Declare, Scope.Define, assocSet, assocGet, lookupLocal, c4prog,
    execStmts, execStmt, evalExpr, evalArgs, executeBlock, callFunction, bindParams,
    envDefine, envGet, envAssign, envGetAt, envAssignAt, envAncestor, newEnvironment,
    initState, liftE, litToValue, plusValues, evalBinaryOp, renderValue, renderNum,
    isStringV, isFloatV, isTruthy]
  have h2 : (1 + 1 : ℚ) = 2 := by norm_num
  rw [h2]
  constructor <;> decide

/-! ## C2, counterexample -/

/-- C2, counterexample: from the child node, `get-at` with distance 0
reaches the child itself, whose own table does not contain `x`; the claim
says the operation must then fail with `UndefinedVariable`, but
`Environment.GetAt` delegates to the searching `Get`, finds `x` in the
root, and succeeds. Likewise `assign-at` with distance 0 writes to the
root's table, not to the reached node. -/
theorem c2_counterexample :
    envAncestor c2heap 1 0 = some 1 ∧
    assocGet (⟨[], some 0⟩ : Environment).values "x" = none ∧
    envGetAt 10 c2heap 1 0 "x" = .ok (.num 1) ∧
    envAssignAt 10 c2heap 1 0 ⟨"x", 7⟩ (.num 2)
      = .ok [⟨[("x", .num 2)], none⟩, ⟨[], some 0⟩] :=
  ⟨rfl, rfl, rfl, rfl⟩

/-! ## C6 -/

/-- C6, counterexample: the claim says every `+` combination other than
number+number, text+text and text+number fails with `TypeMismatch`; but
the code's fallback fires whenever *either* operand is text, so
`"a" + true` evaluates to the text `atrue` instead of failing. -/
theorem c6_counterexample :
    evalExpr 5 [] (.binary (.lit (.str "a")) .plus 1 (.lit (.bool true)))
      initState = (initState, .ok (.str "atrue")) :=
  rfl

/-- C6, amended: `+` on two numbers is their sum; on two texts their
concatenation; if at least one operand is text (whatever the other
operand is — numeric, boolean, nil or callable) the result is the
concatenation of the two operands' default textual renderings; only
combinations with no text operand and not two numbers fail with
`TypeMismatch`. In particular `"a" + 1` is the text `a1` and `1 + true`
fails with `TypeMismatch`. -/
theorem c6_amended (line : Nat) :
    (∀ a b : ℚ, plusValues line (.num a) (.num b) = .ok (.num (a + b)))
    ∧ (∀ a b : String, plusValues line (.str a) (.str b) = .ok (.str (a ++ b)))
    ∧ (∀ l r : Value, (isStringV l || isStringV r) = true →
        plusValues line l r = .ok (.str (renderValue l ++ renderValue r)))
    ∧ (∀ l r : Value, isStringV l = false → isStringV r = false →
        (isFloatV l && isFloatV r) = false →
        plusValues line l r = .error (.typeMismatch line))
    ∧ evalExpr 5 [] (.binary (.lit (.str "a")) .plus line (.lit (.num 1)))
        initState = (initState, .ok (.str "a1"))
    ∧ evalExpr 5 [] (.binary (.lit (.num 1)) .plus line (.lit (.bool true)))
        initState = (initState, .error (.err (.typeMismatch line))) := by
  refine ⟨fun a b => rfl, fun a b => rfl, ?_, ?_, ?_, ?_⟩
  · intro l r h
    cases l <;> cases r <;> simp_all [plusValues, isStringV, renderValue]
  · intro l r h1 h2 h3
    cases l <;> cases r <;> simp_all [plusValues, isStringV, isFloatV]
  · have h1 : renderNum 1 = "1" := by decide
    simp [evalExpr, liftE, litToValue, evalBinaryOp, plusValues, renderValue,
      isStringV, h1]
  · simp [evalExpr, liftE, litToValue, evalBinaryOp, plusValues, isStringV, isFloatV]

/-- C6 witness: the amended dispatch applied at concrete operands —
`"a" + true` renders-and-concatenates, `true + nil` is a type mismatch. -/
theorem c6_amended_witness :
    plusValues 1 (.str "a") (.bool true)
      = .ok (.str (renderValue (.str "a") ++ renderValue (.bool true)))
    ∧ plusValues 1 (.bool true) .vnil = .error (.typeMismatch 1) :=
  ⟨(c6_amended 1).2.2.1 (.str "a") (.bool true) rfl,
   (c6_amended 1).2.2.2.1 (.bool true) .vnil rfl rfl rfl⟩

end Glox

namespace Glox

/-! ## Association-table and chain-walk lemmas -/

/-- Overwriting a key makes it readable with the new value. -/
theorem assocGet_assocSet_self {β : Type} (tbl : List (String × β))
    (k : String) (v : β) : assocGet (assocSet tbl k v) k = some v := by
  induction tbl with
  | nil => simp [assocSet, assocGet, List.find?]
  | cons hd tl ih =>
    obtain ⟨k', v'⟩ := hd
    by_cases h : k' = k
    · subst h
      simp [assocSet, assocGet, List.find?]
    · simp only [assocSet, if_neg h]
      simpa [assocGet, List.find?, h] using ih

/-- Overwriting one key leaves every other key's entry unchanged. -/
theorem assocGet_assocSet_ne {β : Type} (tbl : List (String × β))
    (k k' : String) (v : β) (h : k ≠ k') :
    assocGet (assocSet tbl k v) k' = assocGet tbl k' := by
  induction tbl with
  | nil => simp [assocSet, assocGet, List.find?, h]
  | cons hd tl ih =>
    obtain ⟨k0, v0⟩ := hd
    by_cases h0 : k0 = k
    · subst h0
      simp [assocSet, assocGet, List.find?, h]
    · simp only [assocSet, if_neg h0]
      by_cases h1 : k0 = k'
      · subst h1
        simp [assocGet, List.find?]
      · simpa [assocGet, List.find?, h1] using ih

/-- Setting an index makes it readable (`List.set` counterpart used for
the environment arena). -/
theorem getElem?_set_self' {α : Type} (l : List α) (i : Nat) (a : α)
    (h : i < l.length) : (l.set i a)[i]? = some a := by
  induction l generalizing i with
  | nil => simp at h
  | cons hd tl ih =>
    cases i with
    | zero => simp
    | succ j =>
      simp only [List.set]
      simpa using ih j (by simpa using h)

/-- The failure condition of the searching `Get`/`Assign`: walking the
enclosing chain from node `i`, the root is reached within `fuel` steps and
no table on the way contains the name. -/
def chainMissing : Nat → List Environment → Nat → String → Bool
  | 0, _, _, _ => false
  | fuel + 1, envs, i, n =>
    match envs[i]? with
    | none => false
    | some node =>
      match assocGet node.values n with
      | some _ => false
      | none =>
        match node.enclosing with
        | some p => chainMissing fuel envs p n
        | none => true

/-- When the whole chain misses the name, `Environment.Get` reports
`UndefinedVariable` at the token's line. -/
theorem envGet_of_chainMissing (fuel : Nat) :
    ∀ (envs : List Environment) (i : Nat) (name : Token),
      chainMissing fuel envs i name.lexeme = true →
      envGet fuel envs i name
        = .error (.undefinedVariable name.line name.lexeme) := by
  induction fuel with
  | zero => intro envs i name h; simp [chainMissing] at h
  | succ f ih =>
    intro envs i name h
    simp only [chainMissing] at h
    simp only [envGet]
    cases hnode : envs[i]? with
    | none => simp [hnode] at h
    | some node =>
      simp only [hnode] at h ⊢
      cases hv : assocGet node.values name.lexeme with
      | some w => simp [hv] at h
      | none =>
        simp only [hv] at h ⊢
        cases henc : node.enclosing with
        | some p =>
          simp only [henc] at h ⊢
          exact ih envs p name h
        | none => simp [henc]

/-- When the whole chain misses the name, `Environment.Assign` reports
`UndefinedVariable` at the token's line. -/
theorem envAssign_of_chainMissing (fuel : Nat) :
    ∀ (envs : List Environment) (i : Nat) (name : Token) (v : Value),
      chainMissing fuel envs i name.lexeme = true →
      envAssign fuel envs i name v
        = .error (.undefinedVariable name.line name.lexeme) := by
  induction fuel with
  | zero => intro envs i name v h; simp [chainMissing] at h
  | succ f ih =>
    intro envs i name v h
    simp only [chainMissing] at h
    simp only [envAssign]
    cases hnode : envs[i]? with
    | none => simp [hnode] at h
    | some node =>
      simp only [hnode] at h ⊢
      cases hv : assocGet node.values name.lexeme with
      | some w => simp [hv] at h
      | none =>
        simp only [hv] at h ⊢
        cases henc : node.enclosing with
        | some p =>
          simp only [henc] at h ⊢
          exact ih envs p name v h
        | none => simp [henc]

/-! ## C2, amended -/

/-- C2, amended: `get-at`/`assign-at` traverse exactly `d` parent links
(`Environment.Ancestor`) and then run the *unindexed* `get`/`assign` from
the reached node: the reached node's own entry wins when present, but
otherwise the search continues through the reached node's ancestors, and
`UndefinedVariable` is reported only when the name is absent from every
node from the reached node up to the root (at line 0 for `get-at`, whose
synthesised token has no line; at the token's line for `assign-at`). -/
theorem c2_amended (fuel : Nat) (envs : List Environment) (i d j : Nat)
    (n : String) (t : Token) (v : Value)
    (hj : envAncestor envs i d = some j) :
    (envGetAt fuel envs i d n = envGet fuel envs j ⟨n, 0⟩)
    ∧ (∀ node w, envs[j]? = some node → assocGet node.values n = some w →
        envGetAt (fuel + 1) envs i d n = .ok w)
    ∧ (chainMissing fuel envs j n = true →
        envGetAt fuel envs i d n = .error (.undefinedVariable 0 n))
    ∧ (envAssignAt fuel envs i d t v = envAssign fuel envs j t v)
    ∧ (chainMissing fuel envs j t.lexeme = true →
        envAssignAt fuel envs i d t v
          = .error (.undefinedVariable t.line t.lexeme)) := by
  refine ⟨?_, ?_, ?_, ?_, ?_⟩
  · simp [envGetAt, hj]
  · intro node w hnode hw
    simp [envGetAt, hj, envGet, hnode, hw]
  · intro hmiss
    simpa [envGetAt, hj] using envGet_of_chainMissing fuel envs j ⟨n, 0⟩ hmiss
  · simp [envAssignAt, hj]
  · intro hmiss
    simpa [envAssignAt, hj] using
      envAssign_of_chainMissing fuel envs j t v hmiss

/-- C2 amended, witness: on the concrete chain `root {x ↦ 1} ← child {}`
with distance 1 from the child, `get-at` reads the root's own entry, and
a name missing from the whole chain yields `UndefinedVariable`. -/
theorem c2_amended_witness :
    envGetAt 6 c2heap 1 1 "x" = .ok (.num 1)
    ∧ envGetAt 5 c2heap 1 1 "y" = .error (.undefinedVariable 0 "y")
    ∧ envAssignAt 5 c2heap 1 1 ⟨"y", 3⟩ (.num 2)
      = .error (.undefinedVariable 3 "y") :=
  ⟨(c2_amended 5 c2heap 1 1 0 "x" ⟨"x", 0⟩ .vnil rfl).2.1
      ⟨[("x", .num 1)], none⟩ (.num 1) rfl rfl,
   (c2_amended 5 c2heap 1 1 0 "y" ⟨"y", 0⟩ .vnil rfl).2.2.1 rfl,
   (c2_amended 5 c2heap 1 1 0 "y" ⟨"y", 3⟩ (.num 2) rfl).2.2.2.2 rfl⟩

/-! ## C5 -/

/-- C5: `Resolver.Declare` at global scope (empty tracker stack) succeeds
and changes nothing; declaring a name already declared in the innermost
tracked scope fails with `DuplicateDeclaration`; declaring the same name
in a freshly pushed inner scope succeeds whatever the outer scopes
contain, and once defined there the name resolves at distance 0 — the
inner binding shadows the outer one. -/
theorem c5_declare (s : Scope) (rest : List Scope) (t : List (Nat × Nat))
    (n : String) :
    (declareName ⟨[], t⟩ n = .ok ⟨[], t⟩)
    ∧ (s.Declared n = true →
        declareName ⟨s :: rest, t⟩ n = .error (.duplicateDeclaration n))
    ∧ (declareName ⟨([] : Scope) :: s :: rest, t⟩ n
        = .ok ⟨Scope.Declare [] n :: s :: rest, t⟩)
    ∧ (findDefinedDistance (Scope.Define (Scope.Declare [] n) n :: s :: rest) n
        = some 0) := by
  refine ⟨rfl, ?_, ?_, ?_⟩
  · intro h
    simp [declareName, h]
  · simp [declareName, Scope.Declared, assocGet, List.find?]
  · simp [Scope.Define, Scope.Declare, assocSet, findDefinedDistance,
      Scope.Defined, assocGet, List.find?]

/-- C5 witness: the three behaviours at concrete scopes — duplicate in
the same scope errors; the same name in a nested scope succeeds and
resolves to distance 0. -/
theorem c5_declare_witness :
    declareName ⟨[[("x", false)]], []⟩ "x"
      = .error (.duplicateDeclaration "x")
    ∧ declareName ⟨[([] : Scope), [("x", true)]], []⟩ "x"
      = .ok ⟨[[("x", false)], [("x", true)]], []⟩
    ∧ findDefinedDistance [[("x", true)], [("x", true)]] "x" = some 0 :=
  ⟨(c5_declare [("x", false)] [] [] "x").2.1 rfl,
   (c5_declare [("x", true)] [] [] "x").2.2.1,
   (c5_declare [("x", true)] [] [] "x").2.2.2⟩

end Glox

namespace Glox

/-! ## Parameter-binding lemmas -/

/-- Binding parameters does not disturb keys that are not parameter
names. -/
theorem bindParams_preserve (params : List Token) (vs : List Value)
    (tbl : List (String × Value)) (name : String)
    (h : name ∉ params.map Token.lexeme) :
    assocGet (bindParams params vs tbl) name = assocGet tbl name := by
  induction params generalizing vs tbl with
  | nil => cases vs <;> rfl
  | cons p ps ih =>
    cases vs with
    | nil => rfl
    | cons v vs' =>
      simp only [List.map_cons, List.mem_cons] at h
      push_neg at h
      simp only [bindParams]
      rw [ih vs' _ h.2, assocGet_assocSet_ne _ _ _ _ (fun hh => h.1 hh.symm)]

/-- With pairwise-distinct parameter names, the fresh call table maps the
`i`-th parameter to the `i`-th argument. -/
theorem bindParams_get (params : List Token) (vs : List Value)
    (tbl : List (String × Value))
    (hnd : (params.map Token.lexeme).Nodup) (i : Nat)
    (hi : i < params.length) (hvi : i < vs.length) :
    assocGet (bindParams params vs tbl) (params.get ⟨i, hi⟩).lexeme
      = some (vs.get ⟨i, hvi⟩) := by
  induction params generalizing vs tbl i with
  | nil => simp at hi
  | cons p ps ih =>
    cases vs with
    | nil => simp at hvi
    | cons v vs' =>
      simp only [List.map_cons, List.nodup_cons] at hnd
      cases i with
      | zero =>
        simp only [bindParams, List.get]
        rw [bindParams_preserve ps vs' _ p.lexeme hnd.1,
          assocGet_assocSet_self]
      | succ j =>
        simp only [bindParams, List.get]
        exact ih vs' _ hnd.2 j (by simpa using hi) (by simpa using hvi)

/-! ## C7 -/

/-- C7: invoking a user-defined function (`Function.Call`/`Lambda.Call`)
appends one fresh environment node whose enclosing node is the callable's
captured node and whose table binds each parameter name to its positional
argument; the body then runs as a block with that node active (the
previous node is restored on exit); a `return` signal caught at this
boundary makes the call yield the carried value — null for a bare
`return` — and normal fall-through yields null. -/
theorem c7_invocation (fuel : Nat) (locals : List (Nat × Nat))
    (closure : Nat) (params : List Token) (body : List Stmt)
    (argvals : List Value) (st : IState)
    (hnd : (params.map Token.lexeme).Nodup)
    (hlen : argvals.length = params.length) :
    (callFunction (fuel + 1) locals closure params body argvals st
      = match executeBlock fuel locals body st.envs.length
          { st with envs :=
              st.envs ++ [⟨bindParams params argvals [], some closure⟩] } with
        | (st1, .ok ()) => (st1, .ok .vnil)
        | (st1, .error (.ret v)) => (st1, .ok v)
        | (st1, .error sg) => (st1, .error sg))
    ∧ (∀ (i : Nat) (hi : i < params.length) (hvi : i < argvals.length),
        assocGet (bindParams params argvals []) (params.get ⟨i, hi⟩).lexeme
          = some (argvals.get ⟨i, hvi⟩))
    ∧ (∀ st1 v, executeBlock fuel locals body st.envs.length
          { st with envs :=
              st.envs ++ [⟨bindParams params argvals [], some closure⟩] }
          = (st1, .error (.ret v)) →
        callFunction (fuel + 1) locals closure params body argvals st
          = (st1, .ok v))
    ∧ (∀ st1, executeBlock fuel locals body st.envs.length
          { st with envs :=
              st.envs ++ [⟨bindParams params argvals [], some closure⟩] }
          = (st1, .ok ()) →
        callFunction (fuel + 1) locals closure params body argvals st
          = (st1, .ok .vnil))
    ∧ (∀ kw st2, execStmt (fuel + 1) locals (.returnStmt kw none) st2
        = (st2, .error (.ret .vnil))) := by
  refine ⟨rfl, ?_, ?_, ?_, fun kw st2 => rfl⟩
  · intro i hi hvi
    exact bindParams_get params argvals [] hnd i hi hvi
  · intro st1 v hblock
    simp only [callFunction, hblock]
  · intro st1 hblock
    simp only [callFunction, hblock]

/-- C7 witness: calling `fun(x){ return x; }` on the argument 5 in the
initial state binds `x ↦ 5` in a fresh node hanging off the captured
global node, and the caught return makes the call yield 5. -/
theorem c7_invocation_witness :
    assocGet (bindParams [⟨"x", 1⟩] [.num 5] []) "x" = some (.num 5)
    ∧ callFunction 6 [] 0 [⟨"x", 1⟩]
        [.returnStmt ⟨"return", 1⟩ (some (.variableExpr 9 ⟨"x", 1⟩))]
        [.num 5] initState
      = (⟨[⟨[], none⟩, ⟨[("x", .num 5)], some 0⟩], 0, []⟩, .ok (.num 5)) := by
  refine ⟨(c7_invocation 5 [] 0 [⟨"x", 1⟩]
      [.returnStmt ⟨"return", 1⟩ (some (.variableExpr 9 ⟨"x", 1⟩))]
      [.num 5] initState (by simp) rfl).2.1 0 (by decide) (by decide), ?_⟩
  rw [(c7_invocation 5 [] 0 [⟨"x", 1⟩]
      [.returnStmt ⟨"return", 1⟩ (some (.variableExpr 9 ⟨"x", 1⟩))]
      [.num 5] initState (by simp) rfl).1]
  simp [executeBlock, execStmts, execStmt, evalExpr, lookupLocal, envGet,
    initState, bindParams, assocSet, assocGet, liftE, newEnvironment]

/-! ## C9 -/

/-- C9: a variable declaration without an initializer defines the name as
null in the current environment node, and a subsequent read of that name
— through the searching `get`, through `get-at` at distance 0, or through
the evaluator's fallback dispatch — yields null rather than
`UndefinedVariable`. -/
theorem c9_nil_init (fuel : Nat) (locals : List (Nat × Nat)) (name : Token)
    (st : IState) (node : Environment)
    (hnode : st.envs[st.cur]? = some node) :
    (execStmt (fuel + 1) locals (.varDecl name none) st
      = ({ st with envs := envDefine st.envs st.cur name.lexeme .vnil }, .ok ()))
    ∧ (∀ ln, envGet (fuel + 1) (envDefine st.envs st.cur name.lexeme .vnil)
        st.cur ⟨name.lexeme, ln⟩ = .ok .vnil)
    ∧ (envGetAt (fuel + 1) (envDefine st.envs st.cur name.lexeme .vnil)
        st.cur 0 name.lexeme = .ok .vnil)
    ∧ (∀ id locals2 ln, lookupLocal locals2 id = none →
        evalExpr (fuel + 2) locals2 (.variableExpr id ⟨name.lexeme, ln⟩)
          { st with envs := envDefine st.envs st.cur name.lexeme .vnil }
          = ({ st with envs := envDefine st.envs st.cur name.lexeme .vnil },
             .ok .vnil)) := by
  have hlt : st.cur < st.envs.length := by
    by_contra hge
    rw [List.getElem?_eq_none (by omega)] at hnode
    exact Option.noConfusion hnode
  have hdef : ∀ ln, envGet (fuel + 1) (envDefine st.envs st.cur name.lexeme .vnil)
      st.cur ⟨name.lexeme, ln⟩ = .ok .vnil := by
    intro ln
    simp only [envDefine, hnode, envGet]
    rw [getElem?_set_self' _ _ _ (by simpa using hlt)]
    simp [assocGet_assocSet_self]
  refine ⟨rfl, hdef, ?_, ?_⟩
  · simp only [envGetAt, envAncestor]
    exact hdef 0
  · intro id locals2 ln hmiss
    simp only [evalExpr, hmiss]
    rw [hdef ln]
    rfl

/-- C9 witness: `var a;` in the initial state, then reading `a`, gives
null. -/
theorem c9_nil_init_witness :
    execStmt 3 [] (.varDecl ⟨"a", 1⟩ none) initState
      = (⟨[⟨[("a", .vnil)], none⟩], 0, []⟩, .ok ())
    ∧ evalExpr 4 [] (.variableExpr 8 ⟨"a", 2⟩)
        ⟨[⟨[("a", .vnil)], none⟩], 0, []⟩
      = (⟨[⟨[("a", .vnil)], none⟩], 0, []⟩, .ok .vnil) := by
  have h := c9_nil_init 2 [] ⟨"a", 1⟩ initState ⟨[], none⟩ rfl
  exact ⟨h.1, h.2.2.2 8 [] 2 rfl⟩

/-! ## C10 -/

/-- C10: when the right-hand side evaluates to `v` and the assignment to
the target name succeeds (through the hop-count path or the fallback
path), the assignment expression itself evaluates to `v` in the updated
state — which is what makes chained and nested assignments yield the
assigned value. -/
theorem c10_assignment_value (fuel : Nat) (locals : List (Nat × Nat))
    (id : Nat) (name : Token) (rhs : Expr) (st st1 : IState) (v : Value)
    (envs2 : List Environment)
    (hrhs : evalExpr fuel locals rhs st = (st1, .ok v)) :
    (∀ d, lookupLocal locals id = some d →
      envAssignAt fuel st1.envs st1.cur d name v = .ok envs2 →
      evalExpr (fuel + 1) locals (.assign id name rhs) st
        = ({ st1 with envs := envs2 }, .ok v))
    ∧ (lookupLocal locals id = none →
      envAssign fuel st1.envs st1.cur name v = .ok envs2 →
      evalExpr (fuel + 1) locals (.assign id name rhs) st
        = ({ st1 with envs := envs2 }, .ok v)) := by
  constructor
  · intro d hd ha
    simp only [evalExpr, hrhs, hd, ha]
  · intro hd ha
    simp only [evalExpr, hrhs, hd, ha]

/-- C10 witness: `x = 7` in a state binding `x` yields 7 and stores 7. -/
theorem c10_assignment_value_witness :
    evalExpr 4 [] (.assign 42 ⟨"x", 1⟩ (.lit (.num 7)))
      ⟨[⟨[("x", .vnil)], none⟩], 0, []⟩
      = (⟨[⟨[("x", .num 7)], none⟩], 0, []⟩, .ok (.num 7)) :=
  (c10_assignment_value 3 [] 42 ⟨"x", 1⟩ (.lit (.num 7))
    ⟨[⟨[("x", .vnil)], none⟩], 0, []⟩ ⟨[⟨[("x", .vnil)], none⟩], 0, []⟩
    (.num 7) [⟨[("x", .num 7)], none⟩] rfl).2 rfl rfl

/-! ## C3 -/

/-- C3: the evaluator's variable and assignment dispatch is keyed on the
hop-count table: a node with an entry `d` is accessed with
`get-at`/`assign-at` at distance `d` from the current Environment Chain
node, and a node without an entry falls back to the unindexed
`get`/`assign` search from the current node. -/
theorem c3_hopcount_dispatch (fuel : Nat) (locals : List (Nat × Nat))
    (id : Nat) (name : Token) (rhs : Expr) (st : IState) :
    (∀ d, lookupLocal locals id = some d →
      evalExpr (fuel + 1) locals (.variableExpr id name) st
        = (st, liftE (envGetAt fuel st.envs st.cur d name.lexeme)))
    ∧ (lookupLocal locals id = none →
      evalExpr (fuel + 1) locals (.variableExpr id name) st
        = (st, liftE (envGet fuel st.envs st.cur name)))
    ∧ (∀ st1 v, evalExpr fuel locals rhs st = (st1, .ok v) →
       (∀ d, lookupLocal locals id = some d →
          evalExpr (fuel + 1) locals (.assign id name rhs) st
            = (match envAssignAt fuel st1.envs st1.cur d name v with
               | .ok envs2 => ({ st1 with envs := envs2 }, .ok v)
               | .error e => (st1, .error (.err e))))
       ∧ (lookupLocal locals id = none →
          evalExpr (fuel + 1) locals (.assign id name rhs) st
            = (match envAssign fuel st1.envs st1.cur name v with
               | .ok envs2 => ({ st1 with envs := envs2 }, .ok v)
               | .error e => (st1, .error (.err e))))) := by
  refine ⟨?_, ?_, ?_⟩
  · intro d hd
    simp only [evalExpr, hd]
  · intro hd
    simp only [evalExpr, hd]
  · intro st1 v hrhs
    constructor
    · intro d hd
      simp only [evalExpr, hrhs, hd]
    · intro hd
      simp only [evalExpr, hrhs, hd]

/-- C3 witness: with table `[(9, 0)]` the node 9 reads through `get-at`
at distance 0; with an empty table it falls back to the searching `get`. -/
theorem c3_hopcount_dispatch_witness :
    evalExpr 3 [(9, 0)] (.variableExpr 9 ⟨"x", 1⟩)
      ⟨[⟨[("x", .num 4)], none⟩], 0, []⟩
      = (⟨[⟨[("x", .num 4)], none⟩], 0, []⟩,
         liftE (envGetAt 2 [⟨[("x", .num 4)], none⟩] 0 0 "x"))
    ∧ evalExpr 3 [] (.variableExpr 9 ⟨"x", 1⟩)
      ⟨[⟨[("x", .num 4)], none⟩], 0, []⟩
      = (⟨[⟨[("x", .num 4)], none⟩], 0, []⟩,
         liftE (envGet 2 [⟨[("x", .num 4)], none⟩] 0 ⟨"x", 1⟩)) :=
  ⟨(c3_hopcount_dispatch 2 [(9, 0)] 9 ⟨"x", 1⟩ (.lit .vnil)
      ⟨[⟨[("x", .num 4)], none⟩], 0, []⟩).1 0 rfl,
   (c3_hopcount_dispatch 2 [] 9 ⟨"x", 1⟩ (.lit .vnil)
      ⟨[⟨[("x", .num 4)], none⟩], 0, []⟩).2.1 rfl⟩

end Glox

namespace Glox

/-! ## C8: resolver determinism

The hop-count table is carried through resolution as an append-log, so
determinism of a second resolution run over the same tree reduces to a
frame property: running any resolver function from a table extended by a
prefix `t` produces exactly the same scopes, the same error (if any), and
the same appended records, merely shifted past `t`. -/

/-- Extend the resolver state's table by a prefix (the first run's
records), leaving the scope stack alone. -/
def shiftLocals (t : List (Nat × Nat)) (st : RState) : RState :=
  ⟨st.scopes, t ++ st.locals⟩

theorem shiftLocals_scopes (t : List (Nat × Nat)) (st : RState) :
    (shiftLocals t st).scopes = st.scopes := rfl

theorem declareName_shiftLocals (t : List (Nat × Nat)) (st : RState)
    (n : String) :
    declareName (shiftLocals t st) n = (declareName st n).map (shiftLocals t) := by
  obtain ⟨sc, loc⟩ := st
  cases sc with
  | nil => rfl
  | cons s rest =>
    by_cases h : s.Declared n = true
    · simp [declareName, shiftLocals, h, Except.map]
    · simp [declareName, shiftLocals, h, Except.map]

theorem defineName_shiftLocals (t : List (Nat × Nat)) (st : RState)
    (n : String) :
    defineName (shiftLocals t st) n = shiftLocals t (defineName st n) := by
  obtain ⟨sc, loc⟩ := st
  cases sc <;> rfl

theorem beginScope_shiftLocals (t : List (Nat × Nat)) (st : RState) :
    beginScope (shiftLocals t st) = shiftLocals t (beginScope st) := rfl

theorem endScope_shiftLocals (t : List (Nat × Nat)) (st : RState) :
    endScope (shiftLocals t st) = shiftLocals t (endScope st) := rfl

theorem resolveLocal_shiftLocals (t : List (Nat × Nat)) (st : RState)
    (id : Nat) (name : Token) :
    resolveLocal (shiftLocals t st) id name
      = shiftLocals t (resolveLocal st id name) := by
  cases h : findDefinedDistance st.scopes name.lexeme with
  | none => simp [resolveLocal, shiftLocals, h]
  | some d => simp [resolveLocal, shiftLocals, h]

theorem declareParams_shiftLocals (ps : List Token) (t : List (Nat × Nat))
    (st : RState) :
    declareParams ps (shiftLocals t st)
      = (declareParams ps st).map (shiftLocals t) := by
  induction ps generalizing st with
  | nil => rfl
  | cons p rest ih =>
    simp only [declareParams, declareName_shiftLocals]
    cases hx : declareName st p.lexeme with
    | error e => rfl
    | ok st1 =>
      simp only [Except.map, defineName_shiftLocals]
      exact ih (defineName st1 p.lexeme)

/-- The frame property for all five mutually recursive resolver walks at
once, by induction on fuel. -/
theorem resolve_frame (fuel : Nat) :
    (∀ (e : Expr) (st : RState) (t : List (Nat × Nat)),
      resolveExpr fuel e (shiftLocals t st)
        = (resolveExpr fuel e st).map (shiftLocals t))
    ∧ (∀ (es : List Expr) (st : RState) (t : List (Nat × Nat)),
      resolveExprs fuel es (shiftLocals t st)
        = (resolveExprs fuel es st).map (shiftLocals t))
    ∧ (∀ (s : Stmt) (st : RState) (t : List (Nat × Nat)),
      resolveStmt fuel s (shiftLocals t st)
        = (resolveStmt fuel s st).map (shiftLocals t))
    ∧ (∀ (ss : List Stmt) (st : RState) (t : List (Nat × Nat)),
      resolveStmts fuel ss (shiftLocals t st)
        = (resolveStmts fuel ss st).map (shiftLocals t))
    ∧ (∀ (params : List Token) (body : List Stmt) (st : RState)
        (t : List (Nat × Nat)),
      resolveFunction fuel params body (shiftLocals t st)
        = (resolveFunction fuel params body st).map (shiftLocals t)) := by
  induction fuel with
  | zero =>
    exact ⟨fun _ _ _ => rfl, fun _ _ _ => rfl, fun _ _ _ => rfl,
      fun _ _ _ => rfl, fun _ _ _ _ => rfl⟩
  | succ f ih =>
    obtain ⟨ihE, ihEs, ihS, ihSs, ihF⟩ := ih
    refine ⟨?_, ?_, ?_, ?_, ?_⟩
    · intro e st t
      cases e with
      | binary l op line r =>
        simp only [resolveExpr, ihE l st t]
        cases hx : resolveExpr f l st with
        | error err => rfl
        | ok st1 => simpa [Except.map] using ihE r st1 t
      | grouping g =>
        simp only [resolveExpr]
        exact ihE g st t
      | lit v => rfl
      | unary op line r =>
        simp only [resolveExpr]
        exact ihE r st t
      | variableExpr id name =>
        simp only [resolveExpr, shiftLocals_scopes]
        cases hsc : st.scopes with
        | nil => simp [resolveLocal_shiftLocals, Except.map]
        | cons s rest =>
          by_cases hd : (s.Declared name.lexeme && !(s.Defined name.lexeme)) = true
          · simp [hd, Except.map]
          · simp [hd, Except.map, resolveLocal_shiftLocals]
      | assign id name value =>
        simp only [resolveExpr, ihE value st t]
        cases hx : resolveExpr f value st with
        | error err => rfl
        | ok st1 => simp [Except.map, resolveLocal_shiftLocals]
      | logical l op r =>
        simp only [resolveExpr, ihE l st t]
        cases hx : resolveExpr f l st with
        | error err => rfl
        | ok st1 => simpa [Except.map] using ihE r st1 t
      | call callee paren args =>
        simp only [resolveExpr, ihE callee st t]
        cases hx : resolveExpr f callee st with
        | error err => rfl
        | ok st1 => simpa [Except.map] using ihEs args st1 t
      | lambda params body =>
        simp only [resolveExpr]
        exact ihF params body st t
    · intro es st t
      cases es with
      | nil => rfl
      | cons e rest =>
        simp only [resolveExprs, ihE e st t]
        cases hx : resolveExpr f e st with
        | error err => rfl
        | ok st1 => simpa [Except.map] using ihEs rest st1 t
    · intro s st t
      cases s with
      | exprStmt e =>
        simp only [resolveStmt]
        exact ihE e st t
      | printStmt e =>
        simp only [resolveStmt]
        exact ihE e st t
      | varDecl name init =>
        simp only [resolveStmt, declareName_shiftLocals]
        cases hx : declareName st name.lexeme with
        | error e => rfl
        | ok st1 =>
          simp only [Except.map]
          cases init with
          | none => simp [defineName_shiftLocals, Except.map]
          | some e =>
            simp only [ihE e st1 t]
            cases hy : resolveExpr f e st1 with
            | error err => rfl
            | ok st2 => simp [Except.map, defineName_shiftLocals]
      | block stmts =>
        simp only [resolveStmt, beginScope_shiftLocals,
          ihSs stmts (beginScope st) t]
        cases hx : resolveStmts f stmts (beginScope st) with
        | error e => rfl
        | ok st1 => simp [Except.map, endScope_shiftLocals]
      | ifStmt c th el =>
        simp only [resolveStmt, ihE c st t]
        cases hx : resolveExpr f c st with
        | error err => rfl
        | ok st1 =>
          simp only [Except.map, ihS th st1 t]
          cases hy : resolveStmt f th st1 with
          | error err => rfl
          | ok st2 =>
            simp only [Except.map]
            cases el with
            | none => rfl
            | some s2 => exact ihS s2 st2 t
      | whileStmt c b =>
        simp only [resolveStmt, ihE c st t]
        cases hx : resolveExpr f c st with
        | error err => rfl
        | ok st1 => simpa [Except.map] using ihS b st1 t
      | breakStmt => rfl
      | continueStmt => rfl
      | returnStmt kw v =>
        cases v with
        | none => rfl
        | some e =>
          simp only [resolveStmt]
          exact ihE e st t
      | funDecl name params body =>
        simp only [resolveStmt, declareName_shiftLocals]
        cases hx : declareName st name.lexeme with
        | error e => rfl
        | ok st1 =>
          simp only [Except.map, defineName_shiftLocals]
          exact ihF params body (defineName st1 name.lexeme) t
    · intro ss st t
      cases ss with
      | nil => rfl
      | cons s rest =>
        simp only [resolveStmts, ihS s st t]
        cases hx : resolveStmt f s st with
        | error e => rfl
        | ok st1 => simpa [Except.map] using ihSs rest st1 t
    · intro params body st t
      simp only [resolveFunction, beginScope_shiftLocals,
        declareParams_shiftLocals]
      cases hx : declareParams params (beginScope st) with
      | error e => rfl
      | ok st1 =>
        simp only [Except.map, ihSs body st1 t]
        cases hy : resolveStmts f body st1 with
        | error e => rfl
        | ok st2 => simp [Except.map, endScope_shiftLocals]

/-- The most recent record of a duplicated log is the log's own most
recent record: the duplicated table denotes the same mapping. -/
theorem lookupLocal_append_self (t : List (Nat × Nat)) (id : Nat) :
    lookupLocal (t ++ t) id = lookupLocal t id := by
  simp only [lookupLocal, List.reverse_append]
  cases h : t.reverse.find? (fun p => p.1 = id) with
  | some x => simp [List.find?_append, h]
  | none => simp [List.find?_append, h]

/-- C8: resolution is deterministic across runs. A first run from the
empty table yields table `t1`; running `resolve` a second time over the
same tree (the Go table lives on the `Interpreter`, so the second run
starts from `t1`) appends exactly the same records again, and the
resulting table maps every node identity to the same distance as `t1` —
the two runs agree as hop-count mappings. -/
theorem c8_determinism (fuel : Nat) (p : List Stmt)
    (t1 : List (Nat × Nat)) (h : resolveProgram fuel p = .ok t1) :
    resolveProgramFrom fuel p t1 = .ok (t1 ++ t1)
    ∧ ∀ id, lookupLocal (t1 ++ t1) id = lookupLocal t1 id := by
  have hframe := (resolve_frame fuel).2.2.2.1 p ⟨[], []⟩ t1
  simp only [resolveProgram, resolveProgramFrom] at h
  cases hx : resolveStmts fuel p ⟨[], []⟩ with
  | error e => rw [hx] at h; exact absurd h (by simp)
  | ok st =>
    rw [hx] at h
    have hloc : st.locals = t1 := by
      simpa using Except.ok.inj h
    have hstart : (⟨[], t1⟩ : RState) = shiftLocals t1 ⟨[], []⟩ := by
      simp [shiftLocals]
    constructor
    · simp only [resolveProgramFrom, hstart, hframe, hx, Except.map]
      simp [shiftLocals, hloc]
    · intro id
      exact lookupLocal_append_self t1 id

/-- C8 witness: a block declaring `a` and printing it resolves to the
table `[(7, 0)]`; a second run over the same tree reproduces exactly the
same records and the same mapping. -/
theorem c8_determinism_witness :
    resolveProgramFrom 6
      [.block [.varDecl ⟨"a", 1⟩ (some (.lit .vnil)),
               .printStmt (.variableExpr 7 ⟨"a", 1⟩)]] [(7, 0)]
      = .ok [(7, 0), (7, 0)]
    ∧ lookupLocal [(7, 0), (7, 0)] 7 = lookupLocal [(7, 0)] 7 :=
  ⟨(c8_determinism 6
      [.block [.varDecl ⟨"a", 1⟩ (some (.lit .vnil)),
               .printStmt (.variableExpr 7 ⟨"a", 1⟩)]] [(7, 0)]
      (by decide)).1,
   (c8_determinism 6
      [.block [.varDecl ⟨"a", 1⟩ (some (.lit .vnil)),
               .printStmt (.variableExpr 7 ⟨"a", 1⟩)]] [(7, 0)]
      (by decide)).2 7⟩

end Glox
